import Mathlib

/-!
Verification development for the omni-claude RAG chat backend.

The definitions below are shallow embeddings of the Python source:
* `CM` embeds `src/core/chat/conversation_manager.py` (`ConversationManager`);
* `Assistant` embeds `src/generation/claude_assistant.py` (`ClaudeAssistant`);
* `VQ` embeds `OpenAIClient.combine_queries` from `src/vector_storage/vector_db.py`.

Python `UUID` values are modelled as `Nat`, Python dicts keyed by UUID as
association lists with first-match lookup (dict well-formedness, namely
distinct keys, is carried as a hypothesis where it matters), exceptions as
an explicit `PyErr` error type returned through `Except`, and the external
tiktoken tokenizer as an abstract function `encodeLen : String -> Nat`
giving the length of `tokenizer.encode`.
-/

set_option autoImplicit false

/-- Python exception values, carrying `str(e)` payloads where the source
    interpolates them into messages. -/
inductive PyErr where
  | valueError (msg : String)
  | typeError (msg : String)
  | keyError (msg : String)
  | attributeError (msg : String)
  | indexError (msg : String)
  | exception (msg : String)
deriving DecidableEq, Repr

/-- `str(e)` of a Python exception: for `KeyError` Python wraps the missing
    key in quotes (modelled with an explicit apostrophe character), for the
    other exception classes it is the message itself. -/
def PyErr.str : PyErr → String
  | .valueError m => m
  | .typeError m => m
  | .keyError m => String.singleton (Char.ofNat 39) ++ m ++ String.singleton (Char.ofNat 39)
  | .attributeError m => m
  | .indexError m => m
  | .exception m => m

namespace CM

/-- One entry of a structured (`list[dict]`) content value; the token
    estimator only ever reads the optional `"text"` field, so the dict is
    modelled by that field alone. -/
structure ContentItem where
  textField : Option String
deriving DecidableEq, Repr

/-- `MessageContent` (the `str | list[dict[str, Any]]` content union accepted
    by `ConversationManager._estimate_tokens`). The `MessageContent` class
    itself is imported from a module absent from `src/`; its shape here
    follows the source's `_estimate_tokens` signature and the spec's
    description of content as plain text or a sequence of typed blocks. -/
inductive MContent where
  | text (s : String)
  | blocks (items : List ContentItem)
deriving DecidableEq, Repr

/-- `ConversationMessage`: role plus content (the fields the manager reads). -/
structure CMessage where
  role : String
  content : MContent
deriving DecidableEq, Repr

/-- `ConversationHistory`: ordered messages plus a running token count.
    `token_count` is a Python `int`, so it is modelled as `Int` (the prune
    loop subtracts from it). -/
structure CHistory where
  conversation_id : Nat
  messages : List CMessage
  token_count : Int
deriving DecidableEq, Repr

/-- `ConversationManager` state: the ceiling plus the two dicts
    (`conversations` and `pending_messages`), keyed by conversation UUID. -/
structure Manager where
  max_tokens : Nat
  conversations : List (Nat × CHistory)
  pending_messages : List (Nat × List CMessage)
deriving DecidableEq, Repr

/-- `dict.get(k)`: first-match association-list lookup. -/
def lookupA {α : Type} : List (Nat × α) → Nat → Option α
  | [], _ => none
  | (k, v) :: rest, key => if k = key then some v else lookupA rest key

/-- `dict[k] = v`: replace the entry in place if the key is present,
    otherwise add it at the end. -/
def insertA {α : Type} : List (Nat × α) → Nat → α → List (Nat × α)
  | [], key, v => [(key, v)]
  | (k, w) :: rest, key, v =>
      if k = key then (key, v) :: rest else (k, w) :: insertA rest key v

/-- `dict.pop(k, None)` key removal: drop the entry for the key if present. -/
def eraseA {α : Type} : List (Nat × α) → Nat → List (Nat × α)
  | [], _ => []
  | (k, w) :: rest, key => if k = key then rest else (k, w) :: eraseA rest key

/-- `ConversationManager._estimate_tokens`: a string is counted by its
    tokenizer-encoded length; a block list sums the encoded lengths of the
    `"text"` fields that are present, ignoring items without one. -/
def estimate (encodeLen : String → Nat) : MContent → Nat
  | .text s => encodeLen s
  | .blocks items => ((items.filterMap ContentItem.textField).map encodeLen).sum

/-- `ConversationManager._prune_history`: while the token count exceeds 90%
    of `max_tokens` (the float comparison `token_count > max_tokens * 0.9`
    is modelled exactly as `10 * token_count > 9 * max_tokens`) and more
    than one message remains, pop the oldest message and subtract its
    estimated token count. -/
def pruneLoop (encodeLen : String → Nat) (maxTokens : Nat) :
    List CMessage → Int → List CMessage × Int
  | [], tc => ([], tc)
  | [m], tc => ([m], tc)
  | m :: m2 :: rest, tc =>
      if 9 * (maxTokens : Int) < 10 * tc then
        pruneLoop encodeLen maxTokens (m2 :: rest) (tc - estimate encodeLen m.content)
      else (m :: m2 :: rest, tc)

/-- `ConversationManager.add_message`: `ValueError` if the conversation is
    unknown; otherwise append the message, add its token estimate, then
    prune. Returns the result together with the post-call manager state. -/
def add_message (encodeLen : String → Nat) (cm : Manager) (conversation_id : Nat)
    (role : String) (content : MContent) : Except PyErr Unit × Manager :=
  match lookupA cm.conversations conversation_id with
  | none => (.error (.valueError ("Conversation " ++ toString conversation_id ++ " not found")), cm)
  | some conv =>
      let msgs := conv.messages ++ [⟨role, content⟩]
      let tc := conv.token_count + (estimate encodeLen content : Int)
      let pruned := pruneLoop encodeLen cm.max_tokens msgs tc
      (.ok (), { cm with
        conversations := insertA cm.conversations conversation_id
          ⟨conv.conversation_id, pruned.1, pruned.2⟩ })

/-- `dict`-backed append used by `add_pending_message`: lazily create the
    buffer for the key, then append at its end. -/
def appendAtKey : List (Nat × List CMessage) → Nat → CMessage → List (Nat × List CMessage)
  | [], key, m => [(key, [m])]
  | (k, ms) :: rest, key, m =>
      if k = key then (k, ms ++ [m]) :: rest else (k, ms) :: appendAtKey rest key m

/-- `ConversationManager.add_pending_message`: always succeeds; lazily
    creates the pending buffer and appends `MessageContent.from_str(content)`
    (a plain-text content value) to it. Never touches `conversations`. -/
def add_pending_message (cm : Manager) (conversation_id : Nat)
    (role : String) (content : String) : Manager :=
  { cm with pending_messages :=
      appendAtKey cm.pending_messages conversation_id ⟨role, .text content⟩ }

/-- `ConversationManager.commit_pending`: pop the pending buffer (removed
    from the dict whether or not the merge happens); if it was present and
    non-empty (Python truthiness) and the conversation exists, extend the
    history with the whole batch, add each message's estimate, then prune
    once. The final debug line of the source reads
    `self.conversations[conversation_id]`, which raises `KeyError` when the
    conversation is absent. -/
def commit_pending (encodeLen : String → Nat) (cm : Manager)
    (conversation_id : Nat) : Except PyErr Unit × Manager :=
  let popped := lookupA cm.pending_messages conversation_id
  let cm1 : Manager := { cm with pending_messages := eraseA cm.pending_messages conversation_id }
  let cm2 : Manager :=
    match popped with
    | some ps =>
        if ps = [] then cm1
        else
          match lookupA cm1.conversations conversation_id with
          | some conv =>
              let msgs := conv.messages ++ ps
              let tc := ps.foldl (fun a m => a + (estimate encodeLen m.content : Int)) conv.token_count
              let pruned := pruneLoop encodeLen cm1.max_tokens msgs tc
              { cm1 with conversations :=
                  (insertA cm1.conversations conversation_id
                    ⟨conv.conversation_id, pruned.1, pruned.2⟩) }
          | none => cm1
    | none => cm1
  match lookupA cm2.conversations conversation_id with
  | some _ => (.ok (), cm2)
  | none => (.error (.keyError (toString conversation_id)), cm2)

/-- `ConversationManager.rollback_pending`: `dict.pop(id, None)` on the
    pending map; unconditional, a no-op when no buffer exists. -/
def rollback_pending (cm : Manager) (conversation_id : Nat) : Manager :=
  { cm with pending_messages := eraseA cm.pending_messages conversation_id }

/-- `ConversationManager.get_or_create_conversation`. With no id, a fresh
    conversation is created under a generated UUID (modelled by `freshId`).
    With a known id the stored history is returned. With an unknown id the
    source calls `self.create_conversation(conversation_id=conversation_id)`,
    but `create_conversation` accepts no such parameter, so Python raises
    `TypeError` before any state change. -/
def get_or_create_conversation (cm : Manager) (freshId : Nat)
    (conversation_id : Option Nat) : Except PyErr (Manager × CHistory) :=
  match conversation_id with
  | none =>
      let conv : CHistory := ⟨freshId, [], 0⟩
      .ok ({ cm with conversations := insertA cm.conversations freshId conv }, conv)
  | some cid =>
      match lookupA cm.conversations cid with
      | some conv => .ok (cm, conv)
      | none =>
          .error (.typeError
            "create_conversation() got an unexpected keyword argument")

/-- `ConversationManager.get_conversation_with_pending`: `ValueError` if the
    id is unknown; otherwise a fresh `ConversationHistory` whose messages
    are a copy of the committed messages with any pending messages appended
    and whose token count is the stored one. The source mutates only the
    copy (`conversation.messages.copy()`), never `self.*`, so the manager
    state is returned unchanged. -/
def get_conversation_with_pending (cm : Manager) (conversation_id : Option Nat) :
    Except PyErr CHistory × Manager :=
  match conversation_id with
  | none => (.error (.valueError "Conversation None not found"), cm)
  | some cid =>
      match lookupA cm.conversations cid with
      | none => (.error (.valueError ("Conversation " ++ toString cid ++ " not found")), cm)
      | some conv =>
          (.ok ⟨conv.conversation_id,
                conv.messages ++ ((lookupA cm.pending_messages cid).getD []),
                conv.token_count⟩, cm)

/-- The manager as constructed: a ceiling and two empty dicts. -/
def emptyManager (maxTokens : Nat) : Manager := ⟨maxTokens, [], []⟩

/-- One externally invocable manager operation. -/
inductive Op where
  | addMessage (conversation_id : Nat) (role : String) (content : MContent)
  | addPending (conversation_id : Nat) (role : String) (content : String)
  | commitPending (conversation_id : Nat)
  | rollbackPending (conversation_id : Nat)
  | getOrCreate (freshId : Nat) (conversation_id : Option Nat)
deriving DecidableEq, Repr

/-- Post-call manager state of one operation (Python exceptions do not roll
    the object back, so the state after a raising call is kept). -/
def applyOp (encodeLen : String → Nat) (cm : Manager) : Op → Manager
  | .addMessage cid role content => (add_message encodeLen cm cid role content).2
  | .addPending cid role content => add_pending_message cm cid role content
  | .commitPending cid => (commit_pending encodeLen cm cid).2
  | .rollbackPending cid => rollback_pending cm cid
  | .getOrCreate freshId cid =>
      match get_or_create_conversation cm freshId cid with
      | .ok (cm2, _) => cm2
      | .error _ => cm

/-- Manager state reached from a fresh manager by a sequence of operations. -/
def runOps (encodeLen : String → Nat) (maxTokens : Nat) (ops : List Op) : Manager :=
  ops.foldl (applyOp encodeLen) (emptyManager maxTokens)

/-- C3's invariant for one stored history: the stored count is the sum of
    the per-message estimates. -/
def tokenInv (encodeLen : String → Nat) (conv : CHistory) : Prop :=
  conv.token_count = (conv.messages.map (fun m => (estimate encodeLen m.content : Int))).sum

/-- C3's invariant for the whole manager. -/
def managerInv (encodeLen : String → Nat) (cm : Manager) : Prop :=
  ∀ cid conv, lookupA cm.conversations cid = some conv → tokenInv encodeLen conv

/-- The pending message built by `add_pending_message` from a (role, content)
    pair: `MessageContent.from_str` wraps the content as plain text. -/
def mkPendingMsg (p : String × String) : CMessage := ⟨p.1, .text p.2⟩

/-- A batch of `add_pending_message` calls for one conversation. -/
def appendPendingBatch (cid : Nat) (items : List (String × String)) (cm : Manager) : Manager :=
  items.foldl (fun c p => add_pending_message c cid p.1 p.2) cm

end CM

namespace VQ

/-- Python `str.strip()`: drop leading and trailing whitespace characters. -/
def pyStrip (s : String) : String :=
  ⟨(((s.data.dropWhile Char.isWhitespace).reverse).dropWhile Char.isWhitespace).reverse⟩

/-- `OpenAIClient.combine_queries` from `src/vector_storage/vector_db.py`:
    `[query for query in [user_query] + generated_queries if query.strip()]`.
    Python's `if query.strip()` keeps an entry whose stripped form is
    non-empty. -/
def combine_queries (user_query : String) (generated_queries : List String) : List String :=
  (user_query :: generated_queries).filter (fun q => pyStrip q != "")

end VQ

namespace Assistant

/-- An apostrophe character, kept out of string literals. -/
def apos : String := String.singleton (Char.ofNat 39)

/-- A tool-use input dict; the source reads only its "important_context"
    entry (absent entries raise `KeyError` on subscript). -/
structure ToolInput where
  important_context : Option String
deriving DecidableEq, Repr

/-- One content block of an Anthropic model response. -/
inductive RespBlock where
  | text (t : String)
  | toolUse (id : String) (name : String) (input : ToolInput)
deriving DecidableEq, Repr

/-- A model response: stop reason plus content blocks. -/
structure ModelResponse where
  stop_reason : String
  content : List RespBlock
deriving DecidableEq, Repr

/-- One ranked document as returned by `retriever.retrieve`: the source
    reads `relevance_score` (default None) and `text` via `.get`. -/
structure RankedDoc where
  relevance_score : Option Int
  text : Option String
deriving DecidableEq, Repr

/-- The retriever's ranked results: a dict from result id to document. -/
abbrev RagResults := List (String × RankedDoc)

/-- A content block of a stored conversation message (`Message.content`
    holds a string or a list of dicts; these are the dict shapes the
    assistant constructs). -/
inductive ABlock where
  | text (t : String)
  | toolUse (id : String) (name : String) (input : ToolInput)
  | toolResult (tool_use_id : String) (content : String)
deriving DecidableEq, Repr

/-- `Message.content`: a plain string or a list of content-block dicts. -/
inductive AContent where
  | str (s : String)
  | blocks (bs : List ABlock)
deriving DecidableEq, Repr

/-- A stored `Message` (role and content; the uuid4 id is only used for
    debug output and is omitted). -/
structure AMessage where
  role : String
  content : AContent
deriving DecidableEq, Repr

/-- `ConversationHistory` as used on this path: the ordered message list
    (`total_input_tokens`/`total_output_tokens` are never touched by
    `generate_response`, so they are omitted). -/
structure AState where
  history : List AMessage
deriving DecidableEq, Repr

/-- The external collaborators of `ClaudeAssistant`, all absent from `src/`
    or network-bound: the two `client.messages.create` calls, the LLM call
    inside `formulate_rag_query`, `QueryGenerator.generate_multi_query` and
    `combine_queries`, and `retriever.retrieve`. Each is an abstract
    function of the data the source passes it. -/
structure Env where
  round1 : List AMessage → Except PyErr ModelResponse
  round2 : List AMessage → Except PyErr String
  formulate : String → List AMessage → String → Except PyErr String
  multiQuery : String → Except PyErr (List String)
  combine : String → List String → List String
  retrieve : String → List String → Except PyErr RagResults

/-- Splits a character list on whitespace runs, dropping empty pieces
    (the behavior of Python's no-argument `str.split`). -/
def wordsAux : List Char → List Char → List (List Char)
  | [], acc => if acc = [] then [] else [acc.reverse]
  | c :: rest, acc =>
      if c.isWhitespace then
        if acc = [] then wordsAux rest [] else acc.reverse :: wordsAux rest []
      else wordsAux rest (c :: acc)

/-- `ClaudeAssistant.preprocess_user_input`: strip, then collapse all
    whitespace runs to single spaces (`" ".join(cleaned.split())`; the
    leading strip is subsumed by the no-argument split). -/
def preprocess_user_input (s : String) : String :=
  String.intercalate " " ((wordsAux s.data []).map (fun w => ⟨w⟩))

/-- `ConversationHistory.add_message`: append a `Message` built from the
    role and content. -/
def addHistMessage (st : AState) (role : String) (content : AContent) : AState :=
  ⟨st.history ++ [⟨role, content⟩]⟩

/-- `ClaudeAssistant.get_recent_context`: the last 6 stored messages. -/
def get_recent_context (st : AState) : List AMessage :=
  st.history.drop (st.history.length - 6)

/-- `ClaudeAssistant.use_rag_search`: read recent context and the
    `important_context` entry (KeyError when absent), formulate the RAG
    query, expand it, combine, and retrieve. The LLM/query-generator/
    retriever calls come from the environment. -/
def use_rag_search (env : Env) (st : AState) (user_input : String)
    (tool_input : ToolInput) : Except PyErr RagResults :=
  let recent := get_recent_context st
  match tool_input.important_context with
  | none => .error (.keyError "important_context")
  | some ic =>
      match env.formulate user_input recent ic with
      | .error e => .error e
      | .ok rag_query =>
          match env.multiQuery rag_query with
          | .error e => .error e
          | .ok multiple_queries =>
              env.retrieve rag_query (env.combine rag_query multiple_queries)

/-- `ClaudeAssistant.call_tool`: dispatch "rag_search" to the RAG handler,
    raise ValueError for any other tool name. -/
def call_tool (env : Env) (st : AState) (tool_name : String)
    (tool_input : ToolInput) (user_input : String) : Except PyErr RagResults :=
  if tool_name = "rag_search" then use_rag_search env st user_input tool_input
  else .error (.valueError ("Tool " ++ tool_name ++ " not supported"))

/-- The value `handle_tool_use` returns: `{"content": tool_result}` (a
    dict) on success, or the plain string `"Error: {e}"` on any caught
    exception. -/
inductive ToolOutcome where
  | dict (content : RagResults)
  | str (s : String)
deriving DecidableEq, Repr

/-- `ClaudeAssistant.handle_tool_use`: execute the tool; any exception is
    caught at this dispatch boundary and turned into an error string. -/
def handle_tool_use (env : Env) (st : AState) (tool_name : String)
    (tool_input : ToolInput) (user_input : String) : ToolOutcome :=
  match call_tool env st tool_name tool_input user_input with
  | .ok r => .dict r
  | .error e => .str ("Error: " ++ e.str)

/-- One entry of the `tool_results` list built in `generate_response`:
    `{"type": "tool_result", "tool_use_id": id, "content": outcome}`. -/
structure ToolResultEntry where
  tool_use_id : String
  content : ToolOutcome
deriving DecidableEq, Repr

/-- The tool-use data of a response block, if any. -/
def toolUseOf : RespBlock → Option (String × String × ToolInput)
  | .text _ => none
  | .toolUse id name input => some (id, name, input)

/-- The `tool_results` loop of `generate_response`: one entry per tool-use
    block, in emission order, each carrying that block's invocation id and
    the dispatch outcome. -/
def buildToolResults (env : Env) (st : AState) (user_input : String)
    (blocks : List RespBlock) : List ToolResultEntry :=
  blocks.filterMap (fun b =>
    match b with
    | .text _ => none
    | .toolUse id name input => some ⟨id, handle_tool_use env st name input user_input⟩)

/-- Python interpolation of an optional relevance score ("None" if absent). -/
def optScoreRepr : Option Int → String
  | none => "None"
  | some n => toString n

/-- Python interpolation of an optional text field ("None" if absent). -/
def optTextRepr : Option String → String
  | none => "None"
  | some s => s

/-- `ClaudeAssistant.preprocess_ranked_documents`: format each ranked
    document into the fixed three-line block. -/
def preprocess_ranked_documents (ranked_documents : RagResults) : List String :=
  ranked_documents.map (fun p =>
    "Document" ++ apos ++ "s relevance score: " ++ optScoreRepr p.2.relevance_score ++
      ": \n" ++ "Document text: " ++ optTextRepr p.2.text ++ ": \n" ++ "--------\n")

/-- Python's repr of a list of strings as interpolated into an f-string
    (quote escaping inside the entries is not reproduced; no claim depends
    on this text). -/
def pyListRepr (xs : List String) : String :=
  "[" ++ String.intercalate ", " (xs.map (fun s => apos ++ s ++ apos)) ++ "]"

/-- The text of the synthetic tool-result block built in
    `get_augmented_response`. -/
def ragContextText (rag : RagResults) : String :=
  "Here is context retrieved by a RAG system: \n\n" ++
    pyListRepr (preprocess_ranked_documents rag) ++ "\n\n." ++
    "Now please try to answer my original request."

/-- `ClaudeAssistant.get_augmented_response`: reject an empty result list
    or a first result whose content is not a dict (ValueError); otherwise
    append the synthetic user message holding one tool-result block for the
    FIRST entry only, then make the second model call. Returns the result
    together with the post-call history state. -/
def get_augmented_response (env : Env) (st : AState)
    (tool_results : List ToolResultEntry) : Except PyErr String × AState :=
  match tool_results with
  | [] => (.error (.valueError "Invalid tool_results format."), st)
  | e0 :: _ =>
      match e0.content with
      | .str _ => (.error (.valueError "Invalid tool_results format."), st)
      | .dict r =>
          let st2 := addHistMessage st "user"
            (.blocks [.toolResult e0.tool_use_id (ragContextText r)])
          match env.round2 st2.history with
          | .ok content => (.ok content, st2)
          | .error e =>
              (.error (.exception
                ("An error occurred while processing the response: " ++ e.str)), st2)

/-- An assistant-message content block built from a response block. -/
def respBlockToHist : RespBlock → ABlock
  | .text t => .text t
  | .toolUse id name input => .toolUse id name input

/-- The AttributeError raised by `response.content[0].text` when the first
    block is a tool-use block. -/
def attrErrToolUseText : String :=
  apos ++ "ToolUseBlock" ++ apos ++ " object has no attribute " ++ apos ++ "text" ++ apos

/-- `ClaudeAssistant.generate_response`: preprocess and commit the user
    message; call the model; on stop_reason "tool_use" commit the assistant
    blocks, dispatch each tool-use block in order, feed the tool results to
    `get_augmented_response`, and commit the reply; otherwise commit and
    return the first block's text. Any exception in the try body is
    re-raised wrapped as `"An error occurred: {e}"`. Returns the result
    with the post-call history state (Python mutations persist on error). -/
def generate_response (env : Env) (st : AState) (user_input : String) :
    Except PyErr String × AState :=
  let ui := preprocess_user_input user_input
  let st1 := addHistMessage st "user" (.str ui)
  match env.round1 st1.history with
  | .error e => (.error (.exception ("An error occurred: " ++ e.str)), st1)
  | .ok resp =>
      if resp.stop_reason = "tool_use" then
        let st2 := addHistMessage st1 "assistant" (.blocks (resp.content.map respBlockToHist))
        let tool_results := buildToolResults env st2 ui resp.content
        match get_augmented_response env st2 tool_results with
        | (.ok reply, st3) => (.ok reply, addHistMessage st3 "assistant" (.str reply))
        | (.error e, st3) => (.error (.exception ("An error occurred: " ++ e.str)), st3)
      else
        match resp.content with
        | .text t :: _ => (.ok t, addHistMessage st1 "assistant" (.str t))
        | .toolUse _ _ _ :: _ =>
            (.error (.exception ("An error occurred: " ++ attrErrToolUseText)), st1)
        | [] => (.error (.exception "An error occurred: list index out of range"), st1)

/-- The committed user-turn message. -/
def userTurnMsg (ui : String) : AMessage := ⟨"user", .str ui⟩

/-- The committed assistant message holding the model's blocks. -/
def assistantBlocksMsg (resp : ModelResponse) : AMessage :=
  ⟨"assistant", .blocks (resp.content.map respBlockToHist)⟩

/-- The synthetic user message holding one tool-result block. -/
def syntheticToolResultMsg (tid : String) (rag : RagResults) : AMessage :=
  ⟨"user", .blocks [.toolResult tid (ragContextText rag)]⟩

/-- The invocation ids of the tool-use blocks of a response, in order. -/
def toolUseIds (r : ModelResponse) : List String :=
  r.content.filterMap (fun b =>
    match b with
    | .toolUse id _ _ => some id
    | _ => none)

/-- The invocation ids of the tool-result blocks a stored message carries. -/
def toolResultIdsOf (m : AMessage) : List String :=
  match m.content with
  | .str _ => []
  | .blocks bs => bs.filterMap (fun b =>
      match b with
      | .toolResult id _ => some id
      | _ => none)

/-- A ranked result set with one document, used as retriever output in the
    concrete environments below. -/
def demoRag : RagResults := [("0", ⟨some 1, some "doc"⟩)]

/-- A round-1 response with a single rag_search tool-use block. -/
def oneToolResp : ModelResponse :=
  ⟨"tool_use", [.toolUse "id1" "rag_search" ⟨some "ctx"⟩]⟩

/-- A round-1 response with two rag_search tool-use blocks. -/
def twoToolResp : ModelResponse :=
  ⟨"tool_use",
   [.toolUse "id1" "rag_search" ⟨some "ctx"⟩, .toolUse "id2" "rag_search" ⟨some "ctx"⟩]⟩

/-- A round-1 response with a single tool-use block naming an unregistered
    tool. -/
def badToolResp : ModelResponse :=
  ⟨"tool_use", [.toolUse "idX" "bad_tool" ⟨some "ctx"⟩]⟩

/-- A deterministic environment whose model emits one tool-use block and
    whose collaborators all succeed. -/
def envOneTool : Env :=
  ⟨fun _ => .ok oneToolResp, fun _ => .ok "final answer", fun _ _ _ => .ok "q",
   fun _ => .ok [], fun q mq => q :: mq, fun _ _ => .ok demoRag⟩

/-- The same environment but with two tool-use blocks in the response. -/
def envTwoTools : Env :=
  ⟨fun _ => .ok twoToolResp, fun _ => .ok "final answer", fun _ _ _ => .ok "q",
   fun _ => .ok [], fun q mq => q :: mq, fun _ _ => .ok demoRag⟩

/-- The same environment but with the model requesting an unregistered
    tool. -/
def envBadTool : Env :=
  ⟨fun _ => .ok badToolResp, fun _ => .ok "final answer", fun _ _ _ => .ok "q",
   fun _ => .ok [], fun q mq => q :: mq, fun _ _ => .ok demoRag⟩

end Assistant

namespace CM

theorem lookupA_insertA {α : Type} (l : List (Nat × α)) (k : Nat) (v : α) (k' : Nat) :
    lookupA (insertA l k v) k' = if k' = k then some v else lookupA l k' := by
  induction l with
  | nil =>
      simp only [insertA, lookupA]
      by_cases h : k = k'
      · subst h; simp
      · rw [if_neg h, if_neg (fun h2 : k' = k => h h2.symm)]
  | cons hd tl ih =>
      obtain ⟨k0, w⟩ := hd
      simp only [insertA]
      by_cases h0 : k0 = k
      · subst h0
        simp only [if_pos rfl, lookupA]
        by_cases h : k0 = k'
        · subst h; simp
        · rw [if_neg h, if_neg (fun h2 : k' = k0 => h h2.symm), if_neg h]
      · rw [if_neg h0]
        simp only [lookupA, ih]
        by_cases h1 : k0 = k'
        · subst h1
          simp [h0]
        · by_cases h2 : k' = k
          · rw [if_neg h1, if_pos h2, if_pos h2]
          · rw [if_neg h1, if_neg h2, if_neg h2, if_neg h1]

theorem lookupA_eraseA_ne {α : Type} (l : List (Nat × α)) (k k' : Nat) (h : k' ≠ k) :
    lookupA (eraseA l k) k' = lookupA l k' := by
  induction l with
  | nil => simp [eraseA]
  | cons hd tl ih =>
      obtain ⟨k0, w⟩ := hd
      by_cases h0 : k0 = k
      · subst h0
        have he : eraseA ((k0, w) :: tl) k0 = tl := by simp [eraseA]
        rw [he]
        simp only [lookupA]
        rw [if_neg (fun h2 : k0 = k' => h (h2.symm))]
      · simp only [eraseA, if_neg h0, lookupA]
        by_cases h1 : k0 = k' <;> simp [h1, ih]

theorem eraseA_of_lookupA_none {α : Type} (l : List (Nat × α)) (k : Nat)
    (h : lookupA l k = none) : eraseA l k = l := by
  induction l with
  | nil => rfl
  | cons hd tl ih =>
      obtain ⟨k0, w⟩ := hd
      by_cases h0 : k0 = k
      · subst h0
        simp [lookupA] at h
      · simp only [lookupA, if_neg h0] at h
        simp [eraseA, if_neg h0, ih h]

theorem lookupA_eq_none_of_not_mem {α : Type} (l : List (Nat × α)) (k : Nat)
    (h : k ∉ l.map Prod.fst) : lookupA l k = none := by
  induction l with
  | nil => rfl
  | cons hd tl ih =>
      obtain ⟨k0, w⟩ := hd
      simp only [List.map_cons, List.mem_cons] at h
      push_neg at h
      simp only [lookupA, if_neg (fun h2 : k0 = k => h.1 h2.symm)]
      exact ih h.2

theorem lookupA_eraseA_self_of_nodup {α : Type} (l : List (Nat × α)) (k : Nat)
    (h : (l.map Prod.fst).Nodup) : lookupA (eraseA l k) k = none := by
  induction l with
  | nil => rfl
  | cons hd tl ih =>
      obtain ⟨k0, w⟩ := hd
      simp only [List.map_cons, List.nodup_cons] at h
      by_cases h0 : k0 = k
      · subst h0
        have he : eraseA ((k0, w) :: tl) k0 = tl := by simp [eraseA]
        rw [he]
        exact lookupA_eq_none_of_not_mem tl k0 h.1
      · simp only [eraseA, if_neg h0, lookupA, if_neg h0]
        exact ih h.2

theorem lookupA_appendAtKey_self (l : List (Nat × List CMessage)) (k : Nat) (m : CMessage) :
    lookupA (appendAtKey l k m) k = some ((lookupA l k).getD [] ++ [m]) := by
  induction l with
  | nil => simp [appendAtKey, lookupA]
  | cons hd tl ih =>
      obtain ⟨k0, ms⟩ := hd
      by_cases h0 : k0 = k
      · subst h0
        simp [appendAtKey, lookupA]
      · simp only [appendAtKey, if_neg h0, lookupA, if_neg h0]
        exact ih

theorem lookupA_appendAtKey_ne (l : List (Nat × List CMessage)) (k : Nat) (m : CMessage)
    (k' : Nat) (h : k' ≠ k) : lookupA (appendAtKey l k m) k' = lookupA l k' := by
  induction l with
  | nil =>
      simp only [appendAtKey, lookupA]
      rw [if_neg (fun h2 : k = k' => h h2.symm)]
  | cons hd tl ih =>
      obtain ⟨k0, ms⟩ := hd
      by_cases h0 : k0 = k
      · subst h0
        simp only [appendAtKey, if_pos rfl, lookupA]
        rw [if_neg (fun h2 : k0 = k' => h h2.symm), if_neg (fun h2 : k0 = k' => h h2.symm)]
      · simp only [appendAtKey, if_neg h0, lookupA]
        by_cases h1 : k0 = k' <;> simp [h1, ih]

theorem mem_keys_appendAtKey (l : List (Nat × List CMessage)) (k : Nat) (m : CMessage)
    (x : Nat) (h : x ∈ (appendAtKey l k m).map Prod.fst) :
    x ∈ l.map Prod.fst ∨ x = k := by
  induction l with
  | nil =>
      simp [appendAtKey] at h
      right; exact h
  | cons hd tl ih =>
      obtain ⟨k0, ms⟩ := hd
      by_cases h0 : k0 = k
      · subst h0
        simp only [appendAtKey, if_pos rfl, List.map_cons, List.mem_cons] at h
        left
        simpa using h
      · simp only [appendAtKey, if_neg h0, List.map_cons, List.mem_cons] at h
        rcases h with h | h
        · left; simp [h]
        · rcases ih h with h2 | h2
          · left; simp [h2]
          · right; exact h2

theorem nodup_keys_appendAtKey (l : List (Nat × List CMessage)) (k : Nat) (m : CMessage)
    (h : (l.map Prod.fst).Nodup) : ((appendAtKey l k m).map Prod.fst).Nodup := by
  induction l with
  | nil => simp [appendAtKey]
  | cons hd tl ih =>
      obtain ⟨k0, ms⟩ := hd
      simp only [List.map_cons, List.nodup_cons] at h
      by_cases h0 : k0 = k
      · subst h0
        rw [show appendAtKey ((k0, ms) :: tl) k0 m = (k0, ms ++ [m]) :: tl from by
          simp [appendAtKey]]
        simp only [List.map_cons, List.nodup_cons]
        exact ⟨h.1, h.2⟩
      · simp only [appendAtKey, if_neg h0, List.map_cons, List.nodup_cons]
        refine ⟨fun hmem => ?_, ih h.2⟩
        rcases mem_keys_appendAtKey tl k m k0 hmem with h2 | h2
        · exact h.1 h2
        · exact h0 h2

theorem pruneLoop_sum (encodeLen : String → Nat) (maxTokens : Nat) :
    ∀ (msgs : List CMessage) (tc : Int),
      tc = (msgs.map (fun m => (estimate encodeLen m.content : Int))).sum →
      (pruneLoop encodeLen maxTokens msgs tc).2 =
        ((pruneLoop encodeLen maxTokens msgs tc).1.map
          (fun m => (estimate encodeLen m.content : Int))).sum := by
  intro msgs
  induction msgs with
  | nil => intro tc h; simpa [pruneLoop] using h
  | cons m tl ih =>
      intro tc h
      cases tl with
      | nil => simpa [pruneLoop] using h
      | cons m2 rest =>
          by_cases hc : 9 * (maxTokens : Int) < 10 * tc
          · simp only [pruneLoop, if_pos hc]
            apply ih
            simp only [List.map_cons, List.sum_cons] at h ⊢
            omega
          · simpa [pruneLoop, if_neg hc] using h

theorem pruneLoop_ne_nil (encodeLen : String → Nat) (maxTokens : Nat) :
    ∀ (msgs : List CMessage) (tc : Int), msgs ≠ [] →
      (pruneLoop encodeLen maxTokens msgs tc).1 ≠ [] := by
  intro msgs
  induction msgs with
  | nil => intro tc h; exact absurd rfl h
  | cons m tl ih =>
      intro tc _
      cases tl with
      | nil => simp [pruneLoop]
      | cons m2 rest =>
          by_cases hc : 9 * (maxTokens : Int) < 10 * tc
          · simp only [pruneLoop, if_pos hc]
            exact ih _ (by simp)
          · simp [pruneLoop, if_neg hc]

theorem pruneLoop_post (encodeLen : String → Nat) (maxTokens : Nat) :
    ∀ (msgs : List CMessage) (tc : Int), msgs ≠ [] →
      10 * (pruneLoop encodeLen maxTokens msgs tc).2 ≤ 9 * (maxTokens : Int) ∨
        (pruneLoop encodeLen maxTokens msgs tc).1.length = 1 := by
  intro msgs
  induction msgs with
  | nil => intro tc h; exact absurd rfl h
  | cons m tl ih =>
      intro tc _
      cases tl with
      | nil => right; simp [pruneLoop]
      | cons m2 rest =>
          by_cases hc : 9 * (maxTokens : Int) < 10 * tc
          · simp only [pruneLoop, if_pos hc]
            exact ih _ (by simp)
          · left
            simp only [pruneLoop, if_neg hc]
            omega

theorem foldl_add_estimate (encodeLen : String → Nat) :
    ∀ (ps : List CMessage) (t : Int),
      ps.foldl (fun a m => a + (estimate encodeLen m.content : Int)) t =
        t + (ps.map (fun m => (estimate encodeLen m.content : Int))).sum := by
  intro ps
  induction ps with
  | nil => intro t; simp
  | cons m tl ih =>
      intro t
      simp only [List.foldl_cons, List.map_cons, List.sum_cons, ih]
      omega

theorem managerInv_applyOp (encodeLen : String → Nat) (cm : Manager) (op : Op)
    (h : managerInv encodeLen cm) : managerInv encodeLen (applyOp encodeLen cm op) := by
  cases op with
  | addMessage cid role content =>
      simp only [applyOp, add_message]
      cases hl : lookupA cm.conversations cid with
      | none => exact h
      | some conv =>
          intro cid' conv' h'
          simp only at h'
          rw [lookupA_insertA] at h'
          by_cases he : cid' = cid
          · rw [if_pos he] at h'
            cases h'
            have hconv := h cid conv hl
            unfold tokenInv at hconv ⊢
            apply pruneLoop_sum
            simp [hconv, tokenInv]
          · rw [if_neg he] at h'
            exact h cid' conv' h'
  | addPending cid role content =>
      intro cid' conv' h'
      exact h cid' conv' h'
  | commitPending cid =>
      simp only [applyOp, commit_pending]
      cases hp : lookupA cm.pending_messages cid with
      | none =>
          cases lookupA cm.conversations cid <;> exact fun cid' conv' h' => h cid' conv' h'
      | some ps =>
          by_cases hps : ps = []
          · simp only [if_pos hps]
            cases lookupA cm.conversations cid <;> exact fun cid' conv' h' => h cid' conv' h'
          · simp only [if_neg hps]
            cases hl : lookupA cm.conversations cid with
            | none =>
                simp only [hl]
                exact fun cid' conv' h' => h cid' conv' h'
            | some conv =>
                simp only [hl]
                have hmain : ∀ cid' conv',
                    lookupA (insertA cm.conversations cid
                      ⟨conv.conversation_id,
                       (pruneLoop encodeLen cm.max_tokens (conv.messages ++ ps)
                         (ps.foldl (fun a m => a + (estimate encodeLen m.content : Int))
                           conv.token_count)).1,
                       (pruneLoop encodeLen cm.max_tokens (conv.messages ++ ps)
                         (ps.foldl (fun a m => a + (estimate encodeLen m.content : Int))
                           conv.token_count)).2⟩) cid' = some conv' →
                    tokenInv encodeLen conv' := by
                  intro cid' conv' h'
                  rw [lookupA_insertA] at h'
                  by_cases he : cid' = cid
                  · rw [if_pos he] at h'
                    cases h'
                    have hconv := h cid conv hl
                    unfold tokenInv at hconv ⊢
                    apply pruneLoop_sum
                    rw [foldl_add_estimate, hconv]
                    simp
                  · rw [if_neg he] at h'
                    exact h cid' conv' h'
                cases hfin : lookupA (insertA cm.conversations cid _) cid <;>
                  exact fun cid' conv' h' => hmain cid' conv' h'
  | rollbackPending cid =>
      intro cid' conv' h'
      exact h cid' conv' h'
  | getOrCreate freshId cid =>
      cases cid with
      | none =>
          simp only [applyOp, get_or_create_conversation]
          intro cid' conv' h'
          simp only at h'
          rw [lookupA_insertA] at h'
          by_cases he : cid' = freshId
          · rw [if_pos he] at h'
            cases h'
            simp [tokenInv]
          · rw [if_neg he] at h'
            exact h cid' conv' h'
      | some c =>
          simp only [applyOp, get_or_create_conversation]
          cases lookupA cm.conversations c <;> exact fun cid' conv' h' => h cid' conv' h'

theorem appendPendingBatch_conversations (cid : Nat) :
    ∀ (items : List (String × String)) (cm : Manager),
      (appendPendingBatch cid items cm).conversations = cm.conversations ∧
      (appendPendingBatch cid items cm).max_tokens = cm.max_tokens := by
  intro items
  induction items with
  | nil => intro cm; exact ⟨rfl, rfl⟩
  | cons p rest ih =>
      intro cm
      simpa [appendPendingBatch, add_pending_message] using ih (add_pending_message cm cid p.1 p.2)

theorem lookupA_appendPendingBatch_self (cid : Nat) :
    ∀ (items : List (String × String)) (cm : Manager), items ≠ [] →
      lookupA (appendPendingBatch cid items cm).pending_messages cid =
        some ((lookupA cm.pending_messages cid).getD [] ++ items.map mkPendingMsg) := by
  intro items
  induction items with
  | nil => intro cm h; exact absurd rfl h
  | cons p rest ih =>
      intro cm _
      cases rest with
      | nil =>
          simp [appendPendingBatch, add_pending_message, lookupA_appendAtKey_self, mkPendingMsg]
      | cons q rs =>
          have step : appendPendingBatch cid (p :: q :: rs) cm =
              appendPendingBatch cid (q :: rs) (add_pending_message cm cid p.1 p.2) := by
            simp [appendPendingBatch]
          rw [step, ih _ (by simp)]
          simp [add_pending_message, lookupA_appendAtKey_self, mkPendingMsg]

theorem lookupA_appendPendingBatch_ne (cid : Nat) :
    ∀ (items : List (String × String)) (cm : Manager) (cid' : Nat), cid' ≠ cid →
      lookupA (appendPendingBatch cid items cm).pending_messages cid' =
        lookupA cm.pending_messages cid' := by
  intro items
  induction items with
  | nil => intro cm cid' _; rfl
  | cons p rest ih =>
      intro cm cid' h
      have step : appendPendingBatch cid (p :: rest) cm =
          appendPendingBatch cid rest (add_pending_message cm cid p.1 p.2) := by
        simp [appendPendingBatch]
      rw [step, ih _ cid' h]
      exact lookupA_appendAtKey_ne cm.pending_messages cid _ cid' h

theorem nodup_appendPendingBatch (cid : Nat) :
    ∀ (items : List (String × String)) (cm : Manager),
      (cm.pending_messages.map Prod.fst).Nodup →
      ((appendPendingBatch cid items cm).pending_messages.map Prod.fst).Nodup := by
  intro items
  induction items with
  | nil => intro cm h; exact h
  | cons p rest ih =>
      intro cm h
      have step : appendPendingBatch cid (p :: rest) cm =
          appendPendingBatch cid rest (add_pending_message cm cid p.1 p.2) := by
        simp [appendPendingBatch]
      rw [step]
      exact ih _ (nodup_keys_appendAtKey cm.pending_messages cid _ h)

theorem managerInv_runOps (encodeLen : String → Nat) (maxTokens : Nat) (ops : List Op) :
    managerInv encodeLen (runOps encodeLen maxTokens ops) := by
  have base : managerInv encodeLen (emptyManager maxTokens) := by
    intro cid conv h
    simp [emptyManager, lookupA] at h
  unfold runOps
  generalize emptyManager maxTokens = start at base ⊢
  induction ops generalizing start with
  | nil => exact base
  | cons op rest ih =>
      exact ih _ (managerInv_applyOp encodeLen start op base)

theorem commit_pending_eq_of_some (encodeLen : String → Nat) (cm : Manager)
    (cid : Nat) (conv : CHistory) (ps : List CMessage)
    (hl : lookupA cm.conversations cid = some conv)
    (hp : lookupA cm.pending_messages cid = some ps) (hne : ps ≠ []) :
    commit_pending encodeLen cm cid =
      (.ok (),
       { cm with
         conversations :=
           (insertA cm.conversations cid
             ⟨conv.conversation_id,
              (pruneLoop encodeLen cm.max_tokens (conv.messages ++ ps)
                (ps.foldl (fun a m => a + (estimate encodeLen m.content : Int))
                  conv.token_count)).1,
              (pruneLoop encodeLen cm.max_tokens (conv.messages ++ ps)
                (ps.foldl (fun a m => a + (estimate encodeLen m.content : Int))
                  conv.token_count)).2⟩),
         pending_messages := eraseA cm.pending_messages cid }) := by
  simp only [commit_pending, hp, if_neg hne, hl]
  rw [lookupA_insertA]
  simp

theorem commit_pending_lookup_self (encodeLen : String → Nat) (cm : Manager)
    (cid : Nat) (conv : CHistory) (ps : List CMessage)
    (hl : lookupA cm.conversations cid = some conv)
    (hp : lookupA cm.pending_messages cid = some ps) (hne : ps ≠ []) :
    lookupA (commit_pending encodeLen cm cid).2.conversations cid =
      some ⟨conv.conversation_id,
            (pruneLoop encodeLen cm.max_tokens (conv.messages ++ ps)
              (ps.foldl (fun a m => a + (estimate encodeLen m.content : Int))
                conv.token_count)).1,
            (pruneLoop encodeLen cm.max_tokens (conv.messages ++ ps)
              (ps.foldl (fun a m => a + (estimate encodeLen m.content : Int))
                conv.token_count)).2⟩ := by
  rw [commit_pending_eq_of_some encodeLen cm cid conv ps hl hp hne]
  show lookupA (insertA cm.conversations cid _) cid = _
  rw [lookupA_insertA, if_pos rfl]

/-- Claim C3: for every conversation and every sequence of manager
    operations starting from a fresh manager (message appends, pending
    appends, commits, rollbacks, conversation creation), every stored
    conversation's `token_count` equals the sum of the per-message token
    estimates of the messages currently in its committed history, including
    after pruning has removed messages. -/
theorem token_count_always_sum_of_estimates (encodeLen : String → Nat)
    (maxTokens : Nat) (ops : List Op) (cid : Nat) (conv : CHistory)
    (h : lookupA (runOps encodeLen maxTokens ops).conversations cid = some conv) :
    conv.token_count =
      (conv.messages.map (fun m => (estimate encodeLen m.content : Int))).sum :=
  managerInv_runOps encodeLen maxTokens ops cid conv h

/-- Witness for C3: a create followed by an append of "hello" (5 tokens
    under the length tokenizer) leaves a token count equal to the sum of
    estimates. -/
theorem token_count_always_sum_of_estimates_witness :
    lookupA (runOps String.length 100
        [Op.getOrCreate 3 none, Op.addMessage 3 "user" (MContent.text "hello")]).conversations 3 =
      some ⟨3, [⟨"user", MContent.text "hello"⟩], 5⟩ ∧
    (CHistory.mk 3 [⟨"user", MContent.text "hello"⟩] 5).token_count =
      ((CHistory.mk 3 [⟨"user", MContent.text "hello"⟩] 5).messages.map
        (fun m => (estimate String.length m.content : Int))).sum :=
  ⟨by decide,
   token_count_always_sum_of_estimates String.length 100
     [Op.getOrCreate 3 none, Op.addMessage 3 "user" (MContent.text "hello")] 3
     ⟨3, [⟨"user", MContent.text "hello"⟩], 5⟩ (by decide)⟩

/-- Claim C5: with an existing committed history and a non-empty pending
    buffer, `commit_pending` merges the whole pending batch at the end of
    the committed history in order, adds the batch's summed token
    estimates, clears the pending buffer, and prunes exactly once on the
    fully merged history (batch-then-prune, never mid-merge); with no
    pending buffer it is a no-op. -/
theorem commit_pending_batch_then_prune (encodeLen : String → Nat)
    (cm : Manager) (cid : Nat) :
    (∀ conv ps, lookupA cm.conversations cid = some conv →
       lookupA cm.pending_messages cid = some ps → ps ≠ [] →
       commit_pending encodeLen cm cid =
         (.ok (),
          { cm with
            conversations :=
              (insertA cm.conversations cid
                ⟨conv.conversation_id,
                 (pruneLoop encodeLen cm.max_tokens (conv.messages ++ ps)
                   (conv.token_count +
                     (ps.map (fun m => (estimate encodeLen m.content : Int))).sum)).1,
                 (pruneLoop encodeLen cm.max_tokens (conv.messages ++ ps)
                   (conv.token_count +
                     (ps.map (fun m => (estimate encodeLen m.content : Int))).sum)).2⟩),
            pending_messages := eraseA cm.pending_messages cid })) ∧
    (∀ conv, lookupA cm.conversations cid = some conv →
       lookupA cm.pending_messages cid = none →
       commit_pending encodeLen cm cid = (.ok (), cm)) := by
  constructor
  · intro conv ps hc hp hne
    simp only [commit_pending, hp, if_neg hne, hc, foldl_add_estimate]
    rw [lookupA_insertA]
    simp
  · intro conv hc hp
    simp only [commit_pending, hp, eraseA_of_lookupA_none cm.pending_messages cid hp]
    simp only [show { cm with pending_messages := cm.pending_messages } = cm from rfl, hc]

/-- Witness for C5: committing a one-message pending buffer onto a
    one-message history merges in order and sums the estimates; committing
    with no buffer is a no-op. -/
theorem commit_pending_batch_then_prune_witness :
    commit_pending String.length
        ⟨100, [(0, ⟨0, [⟨"user", MContent.text "hi"⟩], 2⟩)],
              [(0, [⟨"assistant", MContent.text "yes"⟩])]⟩ 0 =
      (.ok (),
       ⟨100, [(0, ⟨0, [⟨"user", MContent.text "hi"⟩, ⟨"assistant", MContent.text "yes"⟩], 5⟩)],
             []⟩) ∧
    commit_pending String.length ⟨100, [(0, ⟨0, [⟨"user", MContent.text "hi"⟩], 2⟩)], []⟩ 0 =
      (.ok (), ⟨100, [(0, ⟨0, [⟨"user", MContent.text "hi"⟩], 2⟩)], []⟩) := by
  constructor
  · have h := (commit_pending_batch_then_prune String.length
      ⟨100, [(0, ⟨0, [⟨"user", MContent.text "hi"⟩], 2⟩)],
            [(0, [⟨"assistant", MContent.text "yes"⟩])]⟩ 0).1
      ⟨0, [⟨"user", MContent.text "hi"⟩], 2⟩ [⟨"assistant", MContent.text "yes"⟩]
      (by decide) (by decide) (by decide)
    simpa using h
  · have h := (commit_pending_batch_then_prune String.length
      ⟨100, [(0, ⟨0, [⟨"user", MContent.text "hi"⟩], 2⟩)], []⟩ 0).2
      ⟨0, [⟨"user", MContent.text "hi"⟩], 2⟩ (by decide) (by decide)
    simpa using h

/-- Claim C8: for a known conversation id, `get_conversation_with_pending`
    returns a new history whose messages are the committed messages
    followed by any pending messages, with the stored token count, leaving
    all stored state unchanged; for an unknown id it fails with the
    ValueError-class not-found failure. -/
theorem snapshot_with_pending_spec (cm : Manager) (cid : Nat) :
    (∀ conv, lookupA cm.conversations cid = some conv →
       get_conversation_with_pending cm (some cid) =
         (.ok ⟨conv.conversation_id,
               conv.messages ++ (lookupA cm.pending_messages cid).getD [],
               conv.token_count⟩, cm)) ∧
    (lookupA cm.conversations cid = none →
       get_conversation_with_pending cm (some cid) =
         (.error (.valueError ("Conversation " ++ toString cid ++ " not found")), cm)) := by
  constructor
  · intro conv hc
    simp [get_conversation_with_pending, hc]
  · intro hc
    simp [get_conversation_with_pending, hc]

/-- Witness for C8: a snapshot of a history with one committed and one
    pending message returns both in order without touching the manager. -/
theorem snapshot_with_pending_spec_witness :
    get_conversation_with_pending
        ⟨100, [(0, ⟨0, [⟨"user", MContent.text "hi"⟩], 2⟩)],
              [(0, [⟨"assistant", MContent.text "yes"⟩])]⟩ (some 0) =
      (.ok ⟨0, [⟨"user", MContent.text "hi"⟩, ⟨"assistant", MContent.text "yes"⟩], 2⟩,
       ⟨100, [(0, ⟨0, [⟨"user", MContent.text "hi"⟩], 2⟩)],
             [(0, [⟨"assistant", MContent.text "yes"⟩])]⟩) := by
  have h := (snapshot_with_pending_spec
    ⟨100, [(0, ⟨0, [⟨"user", MContent.text "hi"⟩], 2⟩)],
          [(0, [⟨"assistant", MContent.text "yes"⟩])]⟩ 0).1
    ⟨0, [⟨"user", MContent.text "hi"⟩], 2⟩ (by decide)
  simpa using h

/-- Claim C4: the prune loop removes oldest messages while the token count
    exceeds 90% of the ceiling and more than one message remains, so on any
    non-empty history it never empties the history and stops only at or
    below the threshold or with exactly one message; consequently the
    conversation stored after an append (`add_message`) or a non-empty
    commit (`commit_pending`) satisfies the same disjunction and is
    non-empty. -/
theorem prune_keeps_threshold_or_single :
    (∀ (encodeLen : String → Nat) (maxTokens : Nat) (msgs : List CMessage) (tc : Int),
       msgs ≠ [] →
       (pruneLoop encodeLen maxTokens msgs tc).1 ≠ [] ∧
       (10 * (pruneLoop encodeLen maxTokens msgs tc).2 ≤ 9 * (maxTokens : Int) ∨
         (pruneLoop encodeLen maxTokens msgs tc).1.length = 1)) ∧
    (∀ (encodeLen : String → Nat) (cm : Manager) (cid : Nat) (role : String)
       (content : MContent) (conv' : CHistory),
       lookupA (add_message encodeLen cm cid role content).2.conversations cid = some conv' →
       conv'.messages ≠ [] ∧
       (10 * conv'.token_count ≤ 9 * (cm.max_tokens : Int) ∨ conv'.messages.length = 1)) ∧
    (∀ (encodeLen : String → Nat) (cm : Manager) (cid : Nat) (ps : List CMessage)
       (conv' : CHistory),
       lookupA cm.pending_messages cid = some ps → ps ≠ [] →
       lookupA cm.conversations cid ≠ none →
       lookupA (commit_pending encodeLen cm cid).2.conversations cid = some conv' →
       conv'.messages ≠ [] ∧
       (10 * conv'.token_count ≤ 9 * (cm.max_tokens : Int) ∨ conv'.messages.length = 1)) := by
  refine ⟨?_, ?_, ?_⟩
  · intro encodeLen maxTokens msgs tc hne
    exact ⟨pruneLoop_ne_nil encodeLen maxTokens msgs tc hne,
           pruneLoop_post encodeLen maxTokens msgs tc hne⟩
  · intro encodeLen cm cid role content conv' h'
    rcases hl : lookupA cm.conversations cid with _ | conv
    · rw [show (add_message encodeLen cm cid role content).2 = cm by
        simp [add_message, hl]] at h'
      rw [hl] at h'
      cases h'
    · simp only [add_message, hl] at h'
      rw [lookupA_insertA, if_pos rfl] at h'
      cases h'
      constructor
      · exact pruneLoop_ne_nil encodeLen cm.max_tokens _ _ (by simp)
      · exact pruneLoop_post encodeLen cm.max_tokens _ _ (by simp)
  · intro encodeLen cm cid ps conv' hp hne hcne h'
    rcases hl : lookupA cm.conversations cid with _ | conv
    · exact absurd hl hcne
    · rw [commit_pending_lookup_self encodeLen cm cid conv ps hl hp hne] at h'
      cases h'
      constructor
      · exact pruneLoop_ne_nil encodeLen cm.max_tokens _ _ (by simp [hne])
      · exact pruneLoop_post encodeLen cm.max_tokens _ _ (by simp [hne])

/-- Witness for C4: with ceiling 1 and a two-message history worth 4
    tokens, pruning keeps exactly one message; appending to a stored
    conversation leaves it non-empty and under threshold. -/
theorem prune_keeps_threshold_or_single_witness :
    ((pruneLoop String.length 1 [⟨"u", MContent.text "aa"⟩, ⟨"u", MContent.text "bb"⟩] 4).1 ≠ [] ∧
     (10 * (pruneLoop String.length 1
        [⟨"u", MContent.text "aa"⟩, ⟨"u", MContent.text "bb"⟩] 4).2 ≤ 9 * ((1 : Nat) : Int) ∨
      (pruneLoop String.length 1
        [⟨"u", MContent.text "aa"⟩, ⟨"u", MContent.text "bb"⟩] 4).1.length = 1)) ∧
    ((CHistory.mk 0 [⟨"user", MContent.text "hi"⟩] 2).messages ≠ [] ∧
     (10 * (CHistory.mk 0 [⟨"user", MContent.text "hi"⟩] 2).token_count ≤
        9 * (((Manager.mk 100 [(0, ⟨0, [], 0⟩)] []).max_tokens : Nat) : Int) ∨
      (CHistory.mk 0 [⟨"user", MContent.text "hi"⟩] 2).messages.length = 1)) :=
  ⟨prune_keeps_threshold_or_single.1 String.length 1
     [⟨"u", MContent.text "aa"⟩, ⟨"u", MContent.text "bb"⟩] 4 (by decide),
   prune_keeps_threshold_or_single.2.1 String.length
     (Manager.mk 100 [(0, ⟨0, [], 0⟩)] []) 0 "user" (MContent.text "hi")
     (CHistory.mk 0 [⟨"user", MContent.text "hi"⟩] 2) (by decide)⟩

/-- Claim C6: any sequence of `add_pending_message` calls followed by
    `rollback_pending` leaves committed history and token counts unchanged:
    pending appends always succeed, lazily create the buffer, and never
    touch `conversations`; the rollback discards the buffer unconditionally
    and is a no-op when no buffer exists. -/
theorem append_pending_rollback_leaves_committed (cm : Manager) (cid : Nat)
    (items : List (String × String))
    (hnd : (cm.pending_messages.map Prod.fst).Nodup) :
    (appendPendingBatch cid items cm).conversations = cm.conversations ∧
    (appendPendingBatch cid items cm).max_tokens = cm.max_tokens ∧
    (items ≠ [] →
      lookupA (appendPendingBatch cid items cm).pending_messages cid =
        some ((lookupA cm.pending_messages cid).getD [] ++ items.map mkPendingMsg)) ∧
    (rollback_pending (appendPendingBatch cid items cm) cid).conversations =
      cm.conversations ∧
    lookupA (rollback_pending (appendPendingBatch cid items cm) cid).pending_messages cid =
      none ∧
    (∀ cid', cid' ≠ cid →
      lookupA (rollback_pending (appendPendingBatch cid items cm) cid).pending_messages cid' =
        lookupA cm.pending_messages cid') ∧
    (lookupA cm.pending_messages cid = none → rollback_pending cm cid = cm) := by
  obtain ⟨hconv, hmax⟩ := appendPendingBatch_conversations cid items cm
  refine ⟨hconv, hmax, lookupA_appendPendingBatch_self cid items cm, hconv, ?_, ?_, ?_⟩
  · exact lookupA_eraseA_self_of_nodup _ cid (nodup_appendPendingBatch cid items cm hnd)
  · intro cid' hne
    rw [show (rollback_pending (appendPendingBatch cid items cm) cid).pending_messages =
        eraseA (appendPendingBatch cid items cm).pending_messages cid from rfl]
    rw [lookupA_eraseA_ne _ cid cid' hne]
    exact lookupA_appendPendingBatch_ne cid items cm cid' hne
  · intro hnone
    show { cm with pending_messages := eraseA cm.pending_messages cid } = cm
    rw [eraseA_of_lookupA_none cm.pending_messages cid hnone]

/-- Witness for C6: one pending append then a rollback on a manager with a
    stored conversation leaves the conversation map intact and no buffer. -/
theorem append_pending_rollback_leaves_committed_witness :
    (appendPendingBatch 0 [("user", "hi")]
        (Manager.mk 100 [(0, ⟨0, [], 0⟩)] [])).conversations = [(0, ⟨0, [], 0⟩)] ∧
    lookupA (appendPendingBatch 0 [("user", "hi")]
        (Manager.mk 100 [(0, ⟨0, [], 0⟩)] [])).pending_messages 0 =
      some [⟨"user", MContent.text "hi"⟩] ∧
    (rollback_pending (appendPendingBatch 0 [("user", "hi")]
        (Manager.mk 100 [(0, ⟨0, [], 0⟩)] [])) 0).conversations = [(0, ⟨0, [], 0⟩)] ∧
    lookupA (rollback_pending (appendPendingBatch 0 [("user", "hi")]
        (Manager.mk 100 [(0, ⟨0, [], 0⟩)] [])) 0).pending_messages 0 = none := by
  have h := append_pending_rollback_leaves_committed
    (Manager.mk 100 [(0, ⟨0, [], 0⟩)] []) 0 [("user", "hi")] (by decide)
  exact ⟨h.1, by simpa using h.2.2.1 (by decide), h.2.2.2.1, h.2.2.2.2.1⟩

/-- Claim C10: committing a non-empty pending buffer for an id with no
    committed history pops the buffer (its messages are merged nowhere and
    are lost), leaves the conversations map untouched, and then raises a
    KeyError-class failure from the final debug read of
    `self.conversations[conversation_id]`. -/
theorem commit_pending_orphan_pending_lost (encodeLen : String → Nat)
    (cm : Manager) (cid : Nat) (ps : List CMessage)
    (hp : lookupA cm.pending_messages cid = some ps) (hne : ps ≠ [])
    (hc : lookupA cm.conversations cid = none) :
    commit_pending encodeLen cm cid =
      (.error (.keyError (toString cid)),
       { cm with pending_messages := eraseA cm.pending_messages cid }) ∧
    (commit_pending encodeLen cm cid).2.conversations = cm.conversations ∧
    ((cm.pending_messages.map Prod.fst).Nodup →
       lookupA (commit_pending encodeLen cm cid).2.pending_messages cid = none) := by
  have hmain : commit_pending encodeLen cm cid =
      (.error (.keyError (toString cid)),
       { cm with pending_messages := eraseA cm.pending_messages cid }) := by
    simp only [commit_pending, hp, if_neg hne, hc]
  refine ⟨hmain, by rw [hmain], fun hnd => ?_⟩
  rw [hmain]
  exact lookupA_eraseA_self_of_nodup cm.pending_messages cid hnd

/-- Witness for C10: a manager holding only an orphan pending buffer loses
    it and gets the KeyError. -/
theorem commit_pending_orphan_pending_lost_witness :
    commit_pending String.length ⟨100, [], [(7, [⟨"user", MContent.text "hi"⟩])]⟩ 7 =
      (.error (.keyError "7"), ⟨100, [], []⟩) ∧
    lookupA (commit_pending String.length
        ⟨100, [], [(7, [⟨"user", MContent.text "hi"⟩])]⟩ 7).2.pending_messages 7 = none := by
  have h := commit_pending_orphan_pending_lost String.length
    ⟨100, [], [(7, [⟨"user", MContent.text "hi"⟩])]⟩ 7 [⟨"user", MContent.text "hi"⟩]
    (by decide) (by decide) (by decide)
  exact ⟨by simpa using h.1, h.2.2 (by decide)⟩

/-- Claim C7 (code bug): `get_or_create_conversation` with a
    provided-but-unknown id reaches
    `self.create_conversation(conversation_id=conversation_id)`, but
    `create_conversation` accepts no such parameter, so the call raises a
    TypeError instead of creating an empty history under the provided id;
    the other two branches (no id: fresh empty history; known id: the
    stored history) work as specified. Evaluated at concrete inputs. -/
theorem get_or_create_unknown_id_raises :
    get_or_create_conversation (emptyManager 200000) 5 (some 7) =
      .error (.typeError "create_conversation() got an unexpected keyword argument") ∧
    get_or_create_conversation (emptyManager 200000) 5 none =
      .ok (⟨200000, [(5, ⟨5, [], 0⟩)], []⟩, ⟨5, [], 0⟩) ∧
    get_or_create_conversation ⟨200000, [(7, ⟨7, [], 0⟩)], []⟩ 5 (some 7) =
      .ok (⟨200000, [(7, ⟨7, [], 0⟩)], []⟩, ⟨7, [], 0⟩) := by
  refine ⟨rfl, rfl, ?_⟩
  simp [get_or_create_conversation, lookupA]

end CM

namespace VQ

/-- Claim C9 counterexample: with primary "a" and expansions ["a"],
    `combine_queries` returns ["a", "a"], not the deduplicated ["a"] that
    exact-string duplicate removal would require. -/
theorem combine_queries_no_dedup_cex :
    combine_queries "a" ["a"] = ["a", "a"] ∧ combine_queries "a" ["a"] ≠ ["a"] := by
  constructor <;> decide

/-- Claim C9 (amended): `combine_queries` concatenates the primary query and
    the expansions, drops empty and whitespace-only entries, and preserves
    first-seen order (the result is a sublist of the input sequence); every
    non-blank entry is kept with its full multiplicity, so exact-string
    duplicates are NOT removed. -/
theorem combine_queries_amended (user_query : String) (generated_queries : List String) :
    (combine_queries user_query generated_queries).Sublist (user_query :: generated_queries) ∧
    (∀ q, q ∈ combine_queries user_query generated_queries → pyStrip q ≠ "") ∧
    (∀ q, pyStrip q ≠ "" →
      (combine_queries user_query generated_queries).count q =
        (user_query :: generated_queries).count q) := by
  refine ⟨List.filter_sublist _, ?_, ?_⟩
  · intro q hq
    have h2 := (List.mem_filter.mp hq).2
    simpa using h2
  · intro q hq
    exact List.count_filter (by simpa using hq)

/-- Witness for C9's amended theorem at a concrete input: a blank entry is
    dropped while the duplicate "a" keeps its multiplicity. -/
theorem combine_queries_amended_witness :
    (combine_queries "a" ["", "a"]).Sublist ("a" :: ["", "a"]) ∧
    (combine_queries "a" ["", "a"]).count "a" = ("a" :: ["", "a"]).count "a" :=
  ⟨(combine_queries_amended "a" ["", "a"]).1,
   (combine_queries_amended "a" ["", "a"]).2.2 "a" (by decide)⟩

end VQ

namespace Assistant

theorem buildToolResults_eq (env : Env) (st : AState) (user_input : String) :
    ∀ blocks : List RespBlock,
      buildToolResults env st user_input blocks =
        (blocks.filterMap toolUseOf).map
          (fun t => ⟨t.1, handle_tool_use env st t.2.1 t.2.2 user_input⟩) := by
  intro blocks
  induction blocks with
  | nil => rfl
  | cons b rest ih =>
      cases b with
      | text t => simpa [buildToolResults, toolUseOf] using ih
      | toolUse id name input => simpa [buildToolResults, toolUseOf] using ih

/-- Claim C1 (amended): for a round-1 response with stop_reason "tool_use"
    containing exactly one tool-use block, whose dispatch succeeds and
    whose second model call succeeds, `generate_response` builds exactly
    one tool-result entry matched to that block's invocation id, sends a
    single synthetic user message holding exactly one tool-result block
    with that id before the second model call (whose input history ends at
    that synthetic message), and the final committed history is, in order:
    original user message, assistant tool-use message, synthetic user
    tool-result message, final assistant message. -/
theorem single_tool_round_trip
    (env : Env) (hist0 : List AMessage) (user_input : String)
    (resp : ModelResponse) (tid tname : String) (tin : ToolInput)
    (rag : RagResults) (reply : String)
    (h1 : env.round1 (hist0 ++ [userTurnMsg (preprocess_user_input user_input)]) = .ok resp)
    (h2 : resp.stop_reason = "tool_use")
    (h3 : resp.content.filterMap toolUseOf = [(tid, tname, tin)])
    (h4 : handle_tool_use env
        ⟨hist0 ++ [userTurnMsg (preprocess_user_input user_input), assistantBlocksMsg resp]⟩
        tname tin (preprocess_user_input user_input) = .dict rag)
    (h5 : env.round2 (hist0 ++ [userTurnMsg (preprocess_user_input user_input),
        assistantBlocksMsg resp, syntheticToolResultMsg tid rag]) = .ok reply) :
    buildToolResults env
        ⟨hist0 ++ [userTurnMsg (preprocess_user_input user_input), assistantBlocksMsg resp]⟩
        (preprocess_user_input user_input) resp.content = [⟨tid, .dict rag⟩] ∧
    generate_response env ⟨hist0⟩ user_input =
      (.ok reply,
       ⟨hist0 ++ [userTurnMsg (preprocess_user_input user_input), assistantBlocksMsg resp,
                  syntheticToolResultMsg tid rag, ⟨"assistant", AContent.str reply⟩]⟩) := by
  simp only [userTurnMsg, assistantBlocksMsg, syntheticToolResultMsg] at h1 h4 h5 ⊢
  have hb : buildToolResults env
      ⟨hist0 ++ [⟨"user", AContent.str (preprocess_user_input user_input)⟩,
                 ⟨"assistant", AContent.blocks (resp.content.map respBlockToHist)⟩]⟩
      (preprocess_user_input user_input) resp.content = [⟨tid, .dict rag⟩] := by
    rw [buildToolResults_eq, h3]
    simp [h4]
  refine ⟨hb, ?_⟩
  simp only [generate_response, addHistMessage]
  rw [show (AState.mk hist0).history ++ [(⟨"user",
      AContent.str (preprocess_user_input user_input)⟩ : AMessage)] =
    hist0 ++ [(⟨"user", AContent.str (preprocess_user_input user_input)⟩ : AMessage)] from rfl]
  rw [h1]
  simp only [h2, if_pos]
  rw [show (AState.mk (hist0 ++ [(⟨"user",
      AContent.str (preprocess_user_input user_input)⟩ : AMessage)])).history ++
      [(⟨"assistant", AContent.blocks (resp.content.map respBlockToHist)⟩ : AMessage)] =
    hist0 ++ [⟨"user", AContent.str (preprocess_user_input user_input)⟩,
              ⟨"assistant", AContent.blocks (resp.content.map respBlockToHist)⟩] from by
    simp]
  rw [hb]
  simp only [get_augmented_response, addHistMessage]
  rw [show (AState.mk (hist0 ++ [⟨"user", AContent.str (preprocess_user_input user_input)⟩,
      ⟨"assistant", AContent.blocks (resp.content.map respBlockToHist)⟩])).history ++
      [(⟨"user", AContent.blocks [ABlock.toolResult tid (ragContextText rag)]⟩ : AMessage)] =
    hist0 ++ [⟨"user", AContent.str (preprocess_user_input user_input)⟩,
              ⟨"assistant", AContent.blocks (resp.content.map respBlockToHist)⟩,
              ⟨"user", AContent.blocks [ABlock.toolResult tid (ragContextText rag)]⟩] from by
    simp]
  rw [h5]
  simp

/-- Witness for C1's amended theorem: the one-tool environment completes
    the round with the four-message history and a single id-matched
    tool-result entry. -/
theorem single_tool_round_trip_witness :
    buildToolResults envOneTool
        ⟨[userTurnMsg (preprocess_user_input "hi"), assistantBlocksMsg oneToolResp]⟩
        (preprocess_user_input "hi") oneToolResp.content =
      [⟨"id1", .dict demoRag⟩] ∧
    generate_response envOneTool ⟨[]⟩ "hi" =
      (.ok "final answer",
       ⟨[userTurnMsg (preprocess_user_input "hi"), assistantBlocksMsg oneToolResp,
         syntheticToolResultMsg "id1" demoRag,
         ⟨"assistant", AContent.str "final answer"⟩]⟩) := by
  have h := single_tool_round_trip envOneTool [] "hi" oneToolResp "id1" "rag_search"
    ⟨some "ctx"⟩ demoRag "final answer" rfl rfl rfl rfl rfl
  simpa using h

/-- Claim C1 counterexample: a round-1 tool_use response with TWO tool-use
    blocks ("id1" and "id2") still leads to a synthetic user message
    holding a single tool-result block, for "id1" only, so the claim's
    "one tool-result block per tool-use block ... sent in a single
    synthetic user message" fails on this input. -/
theorem two_tool_use_single_result_sent_cex :
    toolUseIds twoToolResp = ["id1", "id2"] ∧
    envTwoTools.round1 [] = .ok twoToolResp ∧
    (generate_response envTwoTools ⟨[]⟩ "hi").1 = .ok "final answer" ∧
    (generate_response envTwoTools ⟨[]⟩ "hi").2.history.map AMessage.role =
      ["user", "assistant", "user", "assistant"] ∧
    (generate_response envTwoTools ⟨[]⟩ "hi").2.history.map toolResultIdsOf =
      [[], [], ["id1"], []] :=
  ⟨rfl, rfl, rfl, rfl, rfl⟩

/-- Claim C2 (amended): a handler exception (here: any `call_tool` failure,
    including the ValueError for an unregistered tool name) is caught at
    the dispatch boundary and turned into an error-string tool-result
    entry, so the dispatcher itself never propagates; but
    `get_augmented_response` then rejects that error-shaped first entry
    with a ValueError-class failure, so the orchestration round aborts
    with "An error occurred: Invalid tool_results format." after the
    assistant tool-use message, instead of completing. -/
theorem tool_error_caught_but_round_aborts
    (env : Env) (hist0 : List AMessage) (user_input : String)
    (resp : ModelResponse) (tid tname : String) (tin : ToolInput) (e : PyErr)
    (h1 : env.round1 (hist0 ++ [userTurnMsg (preprocess_user_input user_input)]) = .ok resp)
    (h2 : resp.stop_reason = "tool_use")
    (h3 : resp.content.filterMap toolUseOf = [(tid, tname, tin)])
    (h4 : call_tool env
        ⟨hist0 ++ [userTurnMsg (preprocess_user_input user_input), assistantBlocksMsg resp]⟩
        tname tin (preprocess_user_input user_input) = .error e) :
    buildToolResults env
        ⟨hist0 ++ [userTurnMsg (preprocess_user_input user_input), assistantBlocksMsg resp]⟩
        (preprocess_user_input user_input) resp.content =
      [⟨tid, .str ("Error: " ++ e.str)⟩] ∧
    generate_response env ⟨hist0⟩ user_input =
      (.error (.exception "An error occurred: Invalid tool_results format."),
       ⟨hist0 ++ [userTurnMsg (preprocess_user_input user_input),
                  assistantBlocksMsg resp]⟩) := by
  simp only [userTurnMsg, assistantBlocksMsg] at h1 h4 ⊢
  have hb : buildToolResults env
      ⟨hist0 ++ [⟨"user", AContent.str (preprocess_user_input user_input)⟩,
                 ⟨"assistant", AContent.blocks (resp.content.map respBlockToHist)⟩]⟩
      (preprocess_user_input user_input) resp.content =
      [⟨tid, .str ("Error: " ++ e.str)⟩] := by
    rw [buildToolResults_eq, h3]
    simp [handle_tool_use, h4]
  refine ⟨hb, ?_⟩
  simp only [generate_response, addHistMessage]
  rw [show (AState.mk hist0).history ++ [(⟨"user",
      AContent.str (preprocess_user_input user_input)⟩ : AMessage)] =
    hist0 ++ [(⟨"user", AContent.str (preprocess_user_input user_input)⟩ : AMessage)] from rfl]
  rw [h1]
  simp only [h2, if_pos]
  rw [show (AState.mk (hist0 ++ [(⟨"user",
      AContent.str (preprocess_user_input user_input)⟩ : AMessage)])).history ++
      [(⟨"assistant", AContent.blocks (resp.content.map respBlockToHist)⟩ : AMessage)] =
    hist0 ++ [⟨"user", AContent.str (preprocess_user_input user_input)⟩,
              ⟨"assistant", AContent.blocks (resp.content.map respBlockToHist)⟩] from by
    simp]
  rw [hb]
  simp only [get_augmented_response]
  rfl

/-- Witness for C2's amended theorem: the unregistered-tool environment
    produces the error-string tool-result entry and the aborted round. -/
theorem tool_error_caught_but_round_aborts_witness :
    buildToolResults envBadTool
        ⟨[userTurnMsg (preprocess_user_input "hi"), assistantBlocksMsg badToolResp]⟩
        (preprocess_user_input "hi") badToolResp.content =
      [⟨"idX", .str "Error: Tool bad_tool not supported"⟩] ∧
    generate_response envBadTool ⟨[]⟩ "hi" =
      (.error (.exception "An error occurred: Invalid tool_results format."),
       ⟨[userTurnMsg (preprocess_user_input "hi"), assistantBlocksMsg badToolResp]⟩) := by
  have h := tool_error_caught_but_round_aborts envBadTool [] "hi" badToolResp "idX"
    "bad_tool" ⟨some "ctx"⟩ (.valueError "Tool bad_tool not supported") rfl rfl rfl rfl
  simpa using h

/-- Claim C2 counterexample: with the model requesting the unregistered
    tool "bad_tool", the dispatcher does return an error-string
    tool-result entry, but the round then aborts with a ValueError-class
    failure after committing only the user and assistant messages — it
    does not complete, contrary to the claim. -/
theorem unknown_tool_round_not_completed_cex :
    buildToolResults envBadTool
        ⟨[⟨"user", AContent.str "hi"⟩,
          ⟨"assistant", AContent.blocks (badToolResp.content.map respBlockToHist)⟩]⟩
        "hi" badToolResp.content =
      [⟨"idX", .str "Error: Tool bad_tool not supported"⟩] ∧
    (generate_response envBadTool ⟨[]⟩ "hi").1 =
      .error (.exception "An error occurred: Invalid tool_results format.") ∧
    (generate_response envBadTool ⟨[]⟩ "hi").2.history.map AMessage.role =
      ["user", "assistant"] :=
  ⟨rfl, rfl, rfl⟩

end Assistant
